import Mathlib

/-!
Verification of `hdf5_recorder.py` (classes `HDF5Recorder`, `ActiveHDF5Recorder`
and the consumer function `_active_hdf5_recorder`).

Modelling choices for the external collaborators:

* A `numpy` array is a dtype, a shape, and its row-major flattened payload
  (`Arr`).  Payload scalars are abstracted as integers; every real numpy array
  satisfies `Arr.wf` (payload length = product of the shape).
* `np.concatenate` is modelled on the fragment actually exercised by the
  recorder: it succeeds exactly when every input has at least one dimension and
  all inputs agree on trailing shape and dtype (numpy's dtype promotion of
  heterogeneous inputs is outside the modelled fragment); any zero-dimensional
  input makes it fail, as in numpy.
* The HDF5 file on disk is an association list from dataset names to arrays, in
  creation order.  `dset.resize(n, axis=0)` grows the leading dimension, new
  rows reading as the h5py fill value 0.  The h5py slice assignment
  `dset[old:new] = a` succeeds exactly when the value's shape equals the
  selection's shape and the dtypes agree (h5py's broadcasting and numeric
  casting are outside the modelled fragment).
* Python exceptions are modelled by returning `Option Err` next to the
  post-state: `some e` means the call raised, and the returned state is the
  state the object (and the disk) was left in, exactly as in Python.
* Wall-clock instants read from `time.monotonic()` are abstracted as natural
  numbers; each loop iteration of `_active_hdf5_recorder` records the values
  read at its two time reads.
-/

/-- Scalar payload values stored in arrays (array contents are opaque to the
recorder, so we abstract them as integers). -/
abbrev Val := Int

/-- The numpy dtypes appearing in the recorder's scenarios. -/
inductive Dtype where
  | float64
  | uint32
  | boolDt
deriving DecidableEq, Repr

/-- Model of a `numpy.ndarray`: dtype, shape, and row-major flattened payload.
A zero-dimensional (scalar) array has `shape = []`. -/
structure Arr where
  dtype : Dtype
  shape : List Nat
  data : List Val
deriving DecidableEq, Repr

/-- The leading dimension `a.shape[0]` (`len(a)` in Python); `0` for a
zero-dimensional array.  The code only takes `len` of arrays produced by
`np.concatenate`, which always have at least one dimension. -/
def Arr.lead (a : Arr) : Nat := a.shape.headD 0

/-- A well-formed array: the flattened payload has exactly `shape.prod`
elements.  Every real numpy array is well-formed. -/
def Arr.wf (a : Arr) : Prop := a.data.length = a.shape.prod

instance (a : Arr) : Decidable a.wf :=
  inferInstanceAs (Decidable (a.data.length = a.shape.prod))

/-- `np.expand_dims(data, axis=0)`: add a new leading dimension of size 1. -/
def expandDims (a : Arr) : Arr := { a with shape := 1 :: a.shape }

/-- `np.concatenate(data_items)` along axis 0, on the fragment used by the
recorder: requires a nonempty input list whose members all have at least one
dimension and agree on trailing shape and dtype. -/
def concatenate (items : List Arr) : Option Arr :=
  match items with
  | [] => none
  | a :: rest =>
    if (a :: rest).all fun b => b.shape != [] && b.shape.tail == a.shape.tail
        && b.dtype == a.dtype then
      some ⟨a.dtype, ((a :: rest).map Arr.lead).sum :: a.shape.tail,
            ((a :: rest).map Arr.data).flatten⟩
    else
      none

/-- The exceptions the modelled code can raise.  The first four are the
`RuntimeError`s raised by the recorder itself; the last two are the errors of
the external collaborators surfacing out of `flush`. -/
inductive Err where
  /-- `RuntimeError`: attempt to open a recorder that is already open. -/
  | openAlreadyOpen
  /-- `RuntimeError`: attempt to close a recorder that is already closed. -/
  | closeAlreadyClosed
  /-- `RuntimeError`: attempt to store data to a recorder that is closed. -/
  | storeClosed
  /-- `RuntimeError`: attempt to flush a recorder that is closed. -/
  | flushClosed
  /-- `ValueError` raised by `np.concatenate` (zero-dimensional input, or
  trailing-shape/dtype disagreement inside one buffered batch). -/
  | concatenateError
  /-- Error raised by the h5py slice assignment `dset[old:new] = data_array`
  when the value's shape does not match the selection's shape. -/
  | broadcastError
deriving DecidableEq, Repr

/-- Contents of the HDF5 file on disk: named datasets in creation order. -/
abbrev Hdf5File := List (String × Arr)

/-- Dataset lookup (`key in hdf5_file` / `hdf5_file[key]`). -/
def fileLookup : Hdf5File → String → Option Arr
  | [], _ => none
  | (k, a) :: rest, t => if k == t then some a else fileLookup rest t

/-- Replace the dataset stored under an existing key. -/
def fileSet : Hdf5File → String → Arr → Hdf5File
  | [], _, _ => []
  | (k, a) :: rest, t, a' =>
    if k == t then (k, a') :: rest else (k, a) :: fileSet rest t a'

/-- Leading dimension of the dataset stored under `t` (0 when absent). -/
def fileLen (f : Hdf5File) (t : String) : Nat :=
  ((fileLookup f t).map Arr.lead).getD 0

/-- `dset.resize(newSize, axis=0)`: grow the leading dimension; rows added by
the resize read as the h5py fill value 0. -/
def dsetResize (d : Arr) (newSize : Nat) : Arr :=
  { d with shape := newSize :: d.shape.tail,
           data := d.data ++
             List.replicate ((newSize - d.lead) * d.shape.tail.prod) (0 : Val) }

/-- The h5py slice assignment `dset[oldSize:newSize] = a`: succeeds exactly
when the value's shape equals the selection's shape `(newSize - oldSize) ::
trailing` and the dtypes agree. -/
def sliceAssign (d : Arr) (oldSize newSize : Nat) (a : Arr) : Option Arr :=
  if a.shape = (newSize - oldSize) :: d.shape.tail ∧ a.dtype = d.dtype then
    some { d with
             data := d.data.take (oldSize * d.shape.tail.prod) ++ a.data ++
               d.data.drop (newSize * d.shape.tail.prod) }
  else
    none

/-- `self._store_data[dataset].append(data)`, creating the dict entry when the
key is new (Python dicts preserve insertion order). -/
def storePush : List (String × List Arr) → String → Arr → List (String × List Arr)
  | [], k, a => [(k, [a])]
  | (k', l) :: rest, k, a =>
    if k' == k then (k', l ++ [a]) :: rest else (k', l) :: storePush rest k a

/-- The buffered batch for a given table (`self._store_data.get(t, [])`). -/
def pendingOf : List (String × List Arr) → String → List Arr
  | [], _ => []
  | (k, l) :: rest, t => if k == t then l else pendingOf rest t

/-- State of an `HDF5Recorder` object together with the disk file it targets.
`file` is the current contents of the HDF5 file at `self._filename`. -/
structure HDF5Recorder where
  file : Hdf5File
  /-- `self._store_data`: insertion-ordered dict of pending batches. -/
  storeData : List (String × List Arr)
  /-- `self._is_open` -/
  isOpen : Bool
deriving DecidableEq, Repr

namespace HDF5Recorder

/-- `HDF5Recorder.open` (named `openRecorder` because `open` is a Lean
keyword): raises if already open, else creates the HDF5 file, truncating it if
it already exists, and marks the recorder open. -/
def openRecorder (self : HDF5Recorder) : Option Err × HDF5Recorder :=
  if self.isOpen then (some .openAlreadyOpen, self)
  else (none, { self with file := [], isOpen := true })

/-- `HDF5Recorder.extend`: buffer a multi-element batch for a dataset. -/
def extend (self : HDF5Recorder) (dataset : String) (data : Arr) :
    Option Err × HDF5Recorder :=
  if !self.isOpen then (some .storeClosed, self)
  else (none, { self with storeData := storePush self.storeData dataset data })

/-- `HDF5Recorder.append`: implemented in terms of `extend` after
`np.expand_dims(data, axis=0)`. -/
def append (self : HDF5Recorder) (dataset : String) (data : Arr) :
    Option Err × HDF5Recorder :=
  self.extend dataset (expandDims data)

/-- The body of the `with h5py.File(...) as hdf5_file:` block of `flush`:
process the buffered tables in insertion order.  On an exception the file is
left as written so far (the `with` block closes it). -/
def flushTables (file : Hdf5File) :
    List (String × List Arr) → Except (Err × Hdf5File) Hdf5File
  | [] => .ok file
  | (key, dataItems) :: rest =>
    match concatenate dataItems with
    | none => .error (.concatenateError, file)
    | some dataArray =>
      match fileLookup file key with
      | some dset =>
        -- the dataset already exists: resize from `old_size = len(dset)` to
        -- `new_size = old_size + len(data_array)`, then write the new slice
        match sliceAssign (dsetResize dset (dset.lead + dataArray.lead))
            dset.lead (dset.lead + dataArray.lead) dataArray with
        | none =>
          .error (.broadcastError,
            fileSet file key (dsetResize dset (dset.lead + dataArray.lead)))
        | some dsetW => flushTables (fileSet file key dsetW) rest
      | none =>
        -- create the dataset with the first (outer) dimension resizable
        flushTables (file ++ [(key, dataArray)]) rest

/-- `HDF5Recorder.flush`: write all buffered data to the file, then clear the
buffer.  The buffer is cleared only when every table was written without
error. -/
def flush (self : HDF5Recorder) : Option Err × HDF5Recorder :=
  if !self.isOpen then (some .flushClosed, self)
  else if self.storeData.isEmpty then (none, self)
  else
    match flushTables self.file self.storeData with
    | .error (e, file') => (some e, { self with file := file' })
    | .ok file' => (none, { self with file := file', storeData := [] })

/-- `HDF5Recorder.close`: flush, then mark closed.  If the flush raises, the
exception propagates and `_is_open` is left unchanged. -/
def close (self : HDF5Recorder) : Option Err × HDF5Recorder :=
  if !self.isOpen then (some .closeAlreadyClosed, self)
  else
    match self.flush with
    | (some e, s') => (some e, s')
    | (none, s') => (none, { s' with isOpen := false })

end HDF5Recorder

/-- One iteration of the `while True:` loop of `_active_hdf5_recorder`,
describing what the environment did: which message (if any) `queue.get`
returned, and the instants read from `time.monotonic()`.  A `none` message
means `queue.get` timed out (`queue.Empty`).  The end-of-stream sentinel is
not an iteration: it breaks out of the loop. -/
structure LoopIter where
  msg : Option (String × Arr)
  /-- the value of `time.monotonic()` at the `>= flush_time` check -/
  tCheck : Nat
  /-- the value of `time.monotonic()` read after `flush()` returns, used to
  set the next deadline -/
  tDone : Nat
deriving DecidableEq, Repr

/-- State carried across loop iterations of `_active_hdf5_recorder`.  The
`recorder` field is the local `recorder` object of the Python function. -/
structure LoopState where
  recorder : HDF5Recorder
  /-- the `flush_time` local variable (the next flush deadline) -/
  flushTime : Nat
  /-- completion times of the flushes performed by the loop so far, most
  recent first (history variable, not part of the Python state) -/
  flushes : List Nat
deriving DecidableEq, Repr

/-- One iteration of the consumer loop: record the received item (if any),
then flush when the deadline has passed.  An exception ends the loop. -/
def loopStep (F : Nat) (s : LoopState) (it : LoopIter) :
    Option Err × LoopState :=
  match
    (match it.msg with
     | some (dataset, data) => s.recorder.extend dataset data
     | none => (none, s.recorder)) with
  | (some e, rec') => (some e, { s with recorder := rec' })
  | (none, rec') =>
    if s.flushTime ≤ it.tCheck then
      match rec'.flush with
      | (some e, rec'') => (some e, { s with recorder := rec'' })
      | (none, rec'') =>
        (none, { recorder := rec'', flushTime := it.tDone + F,
                 flushes := it.tDone :: s.flushes })
    else
      (none, { s with recorder := rec' })

/-- Run the consumer loop over a list of iterations, stopping at the first
exception. -/
def loopRun (F : Nat) (s : LoopState) : List LoopIter → Option Err × LoopState
  | [] => (none, s)
  | it :: rest =>
    match loopStep F s it with
    | (some e, s') => (some e, s')
    | (none, s') => loopRun F s' rest

/-- `_active_hdf5_recorder(filename, F, queue)` whose loop performed the given
iterations before receiving the end-of-stream sentinel: open a fresh recorder
on the file, run the loop, then (in the `with` block's exit) close it, which
performs the final flush.  When both the loop and the close raise, Python
propagates the exception raised inside `close`. -/
def activeRun (F t0 : Nat) (file0 : Hdf5File) (iters : List LoopIter) :
    Option Err × HDF5Recorder :=
  match HDF5Recorder.openRecorder ⟨file0, [], false⟩ with
  | (some e, rec0) => (some e, rec0)
  | (none, rec0) =>
    match loopRun F ⟨rec0, t0 + F, []⟩ iters with
    | (eLoop, s) =>
      match s.recorder.close with
      | (eClose, recF) => (eClose.or eLoop, recF)

/-- State of an `ActiveHDF5Recorder` handle.  `queue` records the messages put
on the multiprocessing queue, in order (`some` = a `(dataset, data)` write,
`none` = the end-of-stream sentinel); the queue is a FIFO channel, so the
consumer receives exactly this sequence. -/
structure ActiveHDF5Recorder where
  queue : List (Option (String × Arr))
  isOpen : Bool
deriving DecidableEq, Repr

namespace ActiveHDF5Recorder

/-- `ActiveHDF5Recorder.open`: raises if already open, else creates a fresh
queue and starts the consumer sub-process. -/
def openRecorder (self : ActiveHDF5Recorder) :
    Option Err × ActiveHDF5Recorder :=
  if self.isOpen then (some .openAlreadyOpen, self)
  else (none, { queue := [], isOpen := true })

/-- `ActiveHDF5Recorder.extend`: raises if not open, else puts the write
message on the queue and returns immediately. -/
def extend (self : ActiveHDF5Recorder) (dataset : String) (data : Arr) :
    Option Err × ActiveHDF5Recorder :=
  if !self.isOpen then (some .storeClosed, self)
  else (none, { self with queue := self.queue ++ [some (dataset, data)] })

/-- `ActiveHDF5Recorder.append`: implemented in terms of `extend` after
`np.expand_dims(data, axis=0)`. -/
def append (self : ActiveHDF5Recorder) (dataset : String) (data : Arr) :
    Option Err × ActiveHDF5Recorder :=
  self.extend dataset (expandDims data)

/-- `ActiveHDF5Recorder.close`: raises if already closed, else puts the
end-of-stream sentinel on the queue, joins the sub-process and marks the
handle closed. -/
def close (self : ActiveHDF5Recorder) : Option Err × ActiveHDF5Recorder :=
  if !self.isOpen then (some .closeAlreadyClosed, self)
  else (none, { queue := self.queue ++ [none], isOpen := false })

end ActiveHDF5Recorder

/-- The fresh recorder state an `HDF5Recorder(filename)` constructor produces,
viewing a disk whose file at `filename` currently holds `f0`. -/
def freshRec (f0 : Hdf5File) : HDF5Recorder := ⟨f0, [], false⟩

/-- Issue a sequence of `extend` calls (ignoring the returned error flags,
which are `none` on an open recorder). -/
def extendAll (r : HDF5Recorder) (calls : List (String × Arr)) : HDF5Recorder :=
  calls.foldl (fun s c => (s.extend c.1 c.2).2) r

/-- Issue a sequence of `append` calls. -/
def appendAll (r : HDF5Recorder) (calls : List (String × Arr)) : HDF5Recorder :=
  calls.foldl (fun s c => (s.append c.1 c.2).2) r

/-! ### Table profiles

The correctness arguments track, for each table name, the sequence of arrays
that make it up: the dataset already on disk (if any) followed by the buffered
pending batch.  Three observations of such a sequence are preserved by every
operation: the concatenated payload, the total number of rows, and the
dtype/trailing-shape of its first element. -/

/-- Concatenated payload of a sequence of arrays. -/
def tdata (l : List Arr) : List Val := (l.map Arr.data).flatten

/-- Total number of rows (sum of leading dimensions) of a sequence of
arrays. -/
def trows (l : List Arr) : Nat := (l.map Arr.lead).sum

/-- Dtype and trailing shape of the first array of a sequence (`none` for the
empty sequence). -/
def tmeta (l : List Arr) : Option (Dtype × List Nat) :=
  l.head?.map fun a => (a.dtype, a.shape.tail)

/-- Two sequences of arrays with the same concatenated payload, row count and
leading dtype/trailing-shape. -/
def sameProfile (l₁ l₂ : List Arr) : Prop :=
  tdata l₁ = tdata l₂ ∧ trows l₁ = trows l₂ ∧ tmeta l₁ = tmeta l₂

/-- The virtual contents of table `t`: the dataset on disk followed by the
buffered pending batch. -/
def virt (r : HDF5Recorder) (t : String) : List Arr :=
  (fileLookup r.file t).toList ++ pendingOf r.storeData t

/-- The arrays addressed to table `t` within a sequence of writes, in arrival
order. -/
def wsFor (t : String) (ws : List (String × Arr)) : List Arr :=
  (ws.filter fun w => w.1 == t).map Prod.snd

/-- Every dataset in the file has at least one dimension and a well-formed
payload. -/
def wfFile (f : Hdf5File) : Prop := ∀ p ∈ f, p.2.shape ≠ [] ∧ p.2.wf

instance (f : Hdf5File) : Decidable (wfFile f) :=
  inferInstanceAs (Decidable (∀ p ∈ f, p.2.shape ≠ [] ∧ p.2.wf))

/-- Every buffered array has a well-formed payload. -/
def sdWF (sd : List (String × List Arr)) : Prop := ∀ p ∈ sd, ∀ a ∈ p.2, a.wf

instance (sd : List (String × List Arr)) : Decidable (sdWF sd) :=
  inferInstanceAs (Decidable (∀ p ∈ sd, ∀ a ∈ p.2, a.wf))

/-- The buffer holds at most one entry per table name (a Python dict does). -/
def keysNodup (sd : List (String × List Arr)) : Prop := (sd.map Prod.fst).Nodup

instance (sd : List (String × List Arr)) : Decidable (keysNodup sd) :=
  inferInstanceAs (Decidable ((sd.map Prod.fst).Nodup))

/-- Decomposition of the shape of an array with at least one dimension. -/
theorem Arr.shape_eq (a : Arr) (h : a.shape ≠ []) :
    a.shape = a.lead :: a.shape.tail := by
  cases hs : a.shape with
  | nil => exact absurd hs h
  | cons x xs => simp [Arr.lead, hs]

theorem fileLookup_append_of_some {f : Hdf5File} {t : String} {a : Arr}
    (g : Hdf5File) (h : fileLookup f t = some a) :
    fileLookup (f ++ g) t = some a := by
  induction f with
  | nil => simp [fileLookup] at h
  | cons p rest ih =>
    obtain ⟨k, b⟩ := p
    by_cases hk : k == t <;> simp [fileLookup, hk] at h ⊢
    · exact h
    · exact ih h

theorem fileLookup_append_of_none {f : Hdf5File} {t : String}
    (g : Hdf5File) (h : fileLookup f t = none) :
    fileLookup (f ++ g) t = fileLookup g t := by
  induction f with
  | nil => simp [fileLookup]
  | cons p rest ih =>
    obtain ⟨k, b⟩ := p
    by_cases hk : k == t <;> simp [fileLookup, hk] at h ⊢
    exact ih h

theorem fileLookup_fileSet_self {f : Hdf5File} {t : String} {a : Arr}
    (b : Arr) (h : fileLookup f t = some a) :
    fileLookup (fileSet f t b) t = some b := by
  induction f with
  | nil => simp [fileLookup] at h
  | cons p rest ih =>
    obtain ⟨k, c⟩ := p
    by_cases hk : k == t <;> simp [fileLookup, fileSet, hk] at h ⊢
    exact ih h

theorem fileLookup_fileSet_of_ne {f : Hdf5File} {t t' : String} (b : Arr)
    (h : t' ≠ t) : fileLookup (fileSet f t b) t' = fileLookup f t' := by
  induction f with
  | nil => simp [fileSet, fileLookup]
  | cons p rest ih =>
    obtain ⟨k, c⟩ := p
    by_cases hk : k = t
    · subst hk
      have hk' : (k == t') = false := beq_eq_false_iff_ne.mpr fun hh => h hh.symm
      simp [fileSet, fileLookup, hk']
    · have hkf : (k == t) = false := beq_eq_false_iff_ne.mpr hk
      by_cases hk2 : k == t' <;> simp [fileSet, fileLookup, hkf, hk2, ih]

theorem pendingOf_storePush_self (sd : List (String × List Arr)) (k : String)
    (a : Arr) : pendingOf (storePush sd k a) k = pendingOf sd k ++ [a] := by
  induction sd with
  | nil => simp [storePush, pendingOf]
  | cons p rest ih =>
    obtain ⟨k', l⟩ := p
    by_cases hk : k' == k <;> simp [storePush, pendingOf, hk, ih]

theorem pendingOf_storePush_of_ne {t k : String}
    (sd : List (String × List Arr)) (a : Arr) (h : t ≠ k) :
    pendingOf (storePush sd k a) t = pendingOf sd t := by
  induction sd with
  | nil =>
    have hkt : (k == t) = false := beq_eq_false_iff_ne.mpr fun hh => h hh.symm
    simp [storePush, pendingOf, hkt]
  | cons p rest ih =>
    obtain ⟨k', l⟩ := p
    by_cases hk : k' = k
    · subst hk
      have hk' : (k' == t) = false := beq_eq_false_iff_ne.mpr fun hh => h hh.symm
      simp [storePush, pendingOf, hk']
    · have hkf : (k' == k) = false := beq_eq_false_iff_ne.mpr hk
      by_cases hk2 : k' == t <;> simp [storePush, pendingOf, hkf, hk2, ih]

theorem keys_storePush (sd : List (String × List Arr)) (k : String) (a : Arr) :
    (storePush sd k a).map Prod.fst =
      if k ∈ sd.map Prod.fst then sd.map Prod.fst
      else sd.map Prod.fst ++ [k] := by
  induction sd with
  | nil => simp [storePush]
  | cons p rest ih =>
    obtain ⟨k', l⟩ := p
    by_cases hk : k' = k
    · subst hk; simp [storePush]
    · have hkf : (k' == k) = false := beq_eq_false_iff_ne.mpr hk
      by_cases hm : k ∈ rest.map Prod.fst <;>
        simp [storePush, hkf, ih, hm, Ne.symm hk]

theorem keysNodup_storePush {sd : List (String × List Arr)} (k : String)
    (a : Arr) (h : keysNodup sd) : keysNodup (storePush sd k a) := by
  unfold keysNodup at h ⊢
  rw [keys_storePush]
  by_cases hm : k ∈ sd.map Prod.fst
  · simpa [hm]
  · simp only [hm, if_false]
    rw [List.nodup_append]
    exact ⟨h, List.nodup_singleton k, by
      intro x hx hx'
      simp at hx'
      exact hm (hx' ▸ hx)⟩

theorem sdWF_storePush {sd : List (String × List Arr)} {k : String} {a : Arr}
    (h : sdWF sd) (ha : a.wf) : sdWF (storePush sd k a) := by
  induction sd with
  | nil =>
    intro p hp aa haa
    simp [storePush] at hp
    subst hp
    simp at haa
    simpa [haa]
  | cons p rest ih =>
    obtain ⟨k', l⟩ := p
    have hhd : ∀ aa ∈ l, aa.wf := h (k', l) (by simp)
    have htl : sdWF rest := fun q hq => h q (by simp [hq])
    by_cases hk : k' == k
    · intro q hq aa haa
      simp [storePush, hk] at hq
      rcases hq with hq | hq
      · subst hq
        simp at haa
        rcases haa with haa | haa
        · exact hhd aa haa
        · simpa [haa]
      · exact htl q hq aa haa
    · intro q hq aa haa
      simp [storePush, hk] at hq
      rcases hq with hq | hq
      · subst hq; exact hhd aa haa
      · exact ih htl q hq aa haa

theorem pendingOf_eq_nil {sd : List (String × List Arr)} {t : String}
    (h : t ∉ sd.map Prod.fst) : pendingOf sd t = [] := by
  induction sd with
  | nil => simp [pendingOf]
  | cons p rest ih =>
    obtain ⟨k, l⟩ := p
    simp only [List.map_cons, List.mem_cons] at h
    push_neg at h
    have hkt : (k == t) = false := beq_eq_false_iff_ne.mpr fun hh => h.1 hh.symm
    simp [pendingOf, hkt, ih h.2]

theorem wfFile_lookup {f : Hdf5File} {t : String} {a : Arr} (hw : wfFile f)
    (h : fileLookup f t = some a) : a.shape ≠ [] ∧ a.wf := by
  induction f with
  | nil => simp [fileLookup] at h
  | cons p rest ih =>
    obtain ⟨k, b⟩ := p
    have hb := hw (k, b) (by simp)
    have hrest : wfFile rest := fun q hq => hw q (by simp [hq])
    by_cases hk : k == t <;> simp [fileLookup, hk] at h
    · subst h; exact hb
    · exact ih hrest h

theorem wfFile_append_singleton {f : Hdf5File} {a : Arr} (k : String)
    (hw : wfFile f) (h1 : a.shape ≠ []) (h2 : a.wf) :
    wfFile (f ++ [(k, a)]) := by
  intro p hp
  rcases List.mem_append.mp hp with hp | hp
  · exact hw p hp
  · simp at hp; subst hp; exact ⟨h1, h2⟩

theorem mem_fileSet {f : Hdf5File} {t : String} {a : Arr} {p : String × Arr}
    (hp : p ∈ fileSet f t a) : p ∈ f ∨ p.2 = a := by
  induction f with
  | nil => simp [fileSet] at hp
  | cons q rest ih =>
    obtain ⟨k, b⟩ := q
    by_cases hk : k == t <;> simp [fileSet, hk] at hp
    · rcases hp with hp | hp
      · subst hp; simp
      · exact Or.inl (by simp [hp])
    · rcases hp with hp | hp
      · exact Or.inl (by simp [hp])
      · rcases ih hp with h' | h'
        · exact Or.inl (by simp [h'])
        · exact Or.inr h'

theorem wfFile_fileSet {f : Hdf5File} {a : Arr} (t : String) (hw : wfFile f)
    (h1 : a.shape ≠ []) (h2 : a.wf) : wfFile (fileSet f t a) := by
  intro p hp
  rcases mem_fileSet hp with hp | hp
  · exact hw p hp
  · rw [hp]; exact ⟨h1, h2⟩

theorem tdata_append (l₁ l₂ : List Arr) :
    tdata (l₁ ++ l₂) = tdata l₁ ++ tdata l₂ := by
  simp [tdata]

theorem trows_append (l₁ l₂ : List Arr) :
    trows (l₁ ++ l₂) = trows l₁ + trows l₂ := by
  simp [trows]

theorem tmeta_eq_none_iff (l : List Arr) : tmeta l = none ↔ l = [] := by
  cases l <;> simp [tmeta]

theorem sameProfile_refl (l : List Arr) : sameProfile l l := ⟨rfl, rfl, rfl⟩

theorem sameProfile_trans {l₁ l₂ l₃ : List Arr} (h₁ : sameProfile l₁ l₂)
    (h₂ : sameProfile l₂ l₃) : sameProfile l₁ l₃ :=
  ⟨h₁.1.trans h₂.1, h₁.2.1.trans h₂.2.1, h₁.2.2.trans h₂.2.2⟩

theorem sameProfile_append_one {l₁ l₂ : List Arr} (a : Arr)
    (h : sameProfile l₁ l₂) : sameProfile (l₁ ++ [a]) (l₂ ++ [a]) := by
  obtain ⟨hd, hr, hm⟩ := h
  refine ⟨by simp [tdata_append, hd], by simp [trows_append, hr], ?_⟩
  cases l₁ with
  | nil =>
    have : l₂ = [] := by
      have := hm.symm
      rw [show tmeta ([] : List Arr) = none from rfl] at this
      exact (tmeta_eq_none_iff l₂).mp this
    simp [this]
  | cons x xs =>
    cases l₂ with
    | nil => simp [tmeta] at hm
    | cons y ys =>
      simp only [tmeta, List.cons_append, List.head?_cons, Option.map_some'] at hm ⊢
      exact hm

/-- Characterization of a successful `np.concatenate`: the inputs are nonempty,
all have at least one dimension and agree with the first on trailing shape and
dtype, and the output is their row-wise concatenation. -/
theorem concatenate_eq_some {items : List Arr} {dA : Arr}
    (h : concatenate items = some dA) :
    ∃ a₀ rest, items = a₀ :: rest ∧
      dA.dtype = a₀.dtype ∧ dA.shape = trows items :: a₀.shape.tail ∧
      dA.data = tdata items ∧
      ∀ b ∈ items, b.shape ≠ [] ∧ b.shape.tail = a₀.shape.tail ∧
        b.dtype = a₀.dtype := by
  cases items with
  | nil => simp [concatenate] at h
  | cons a₀ rest =>
    refine ⟨a₀, rest, rfl, ?_⟩
    rw [concatenate] at h
    split at h
    case isTrue hall =>
      injection h with h
      subst h
      refine ⟨rfl, rfl, rfl, ?_⟩
      intro b hb
      have hb' := List.all_eq_true.mp hall b hb
      simp only [Bool.and_eq_true, bne_iff_ne, beq_iff_eq] at hb'
      exact ⟨hb'.1.1, hb'.1.2, hb'.2⟩
    case isFalse => exact absurd h (by simp)

/-- The payload length of a row-uniform sequence of well-formed arrays. -/
theorem tdata_length {items : List Arr} {tr : List Nat}
    (h : ∀ b ∈ items, b.shape ≠ [] ∧ b.shape.tail = tr ∧ b.wf) :
    (tdata items).length = trows items * tr.prod := by
  induction items with
  | nil => simp [tdata, trows]
  | cons b rest ih =>
    have hb := h b (by simp)
    have hrest := ih fun c hc => h c (by simp [hc])
    have hshape := b.shape_eq hb.1
    have hlen : b.data.length = b.lead * tr.prod := by
      rw [hb.2.2, hshape, hb.2.1]
      simp [List.prod_cons]
    calc (tdata (b :: rest)).length
        = b.data.length + (tdata rest).length := by simp [tdata]
      _ = b.lead * tr.prod + trows rest * tr.prod := by rw [hlen, hrest]
      _ = trows (b :: rest) * tr.prod := by
          simp [trows, Nat.add_mul]

/-- A successful `np.concatenate` of well-formed inputs is well-formed. -/
theorem concatenate_wf {items : List Arr} {dA : Arr}
    (h : concatenate items = some dA) (hwf : ∀ b ∈ items, b.wf) : dA.wf := by
  obtain ⟨a₀, rest, hitems, hdt, hsh, hdat, hall⟩ := concatenate_eq_some h
  have hlen : (tdata items).length = trows items * a₀.shape.tail.prod :=
    tdata_length fun b hb =>
      ⟨(hall b hb).1, (hall b hb).2.1, hwf b hb⟩
  unfold Arr.wf
  rw [hdat, hsh, hlen, List.prod_cons]

/-- The output of a successful `np.concatenate` carries the same profile as
its input sequence. -/
theorem sameProfile_concat {items : List Arr} {dA : Arr}
    (h : concatenate items = some dA) : sameProfile [dA] items := by
  obtain ⟨a₀, rest, hitems, hdt, hsh, hdat, hall⟩ := concatenate_eq_some h
  refine ⟨by simp [tdata, hdat], ?_, ?_⟩
  · simp only [trows, List.map_cons, List.map_nil, List.sum_cons, List.sum_nil,
      Nat.add_zero]
    rw [Arr.lead, hsh]
    rfl
  · simp only [tmeta, hitems, List.head?_cons, Option.map_some']
    rw [show dA.dtype = a₀.dtype from hdt,
      show dA.shape.tail = a₀.shape.tail by simp [hsh]]

theorem fileLookup_append_singleton_ne {f : Hdf5File} {key t : String}
    (a : Arr) (h : t ≠ key) :
    fileLookup (f ++ [(key, a)]) t = fileLookup f t := by
  cases hl : fileLookup f t with
  | some b => exact fileLookup_append_of_some _ hl
  | none =>
    rw [fileLookup_append_of_none _ hl]
    simp [fileLookup, beq_eq_false_iff_ne.mpr fun hh => h hh.symm]

/-- Characterization of a successful h5py slice assignment. -/
theorem sliceAssign_eq_some {d a w : Arr} {o n : Nat}
    (h : sliceAssign d o n a = some w) :
    a.shape = (n - o) :: d.shape.tail ∧ a.dtype = d.dtype ∧
    w = { d with data := d.data.take (o * d.shape.tail.prod) ++ a.data ++
                   d.data.drop (n * d.shape.tail.prod) } := by
  unfold sliceAssign at h
  split at h
  next hc => injection h with h; exact ⟨hc.1, hc.2, h.symm⟩
  next => exact absurd h (by simp)

/-- Unfolded form of `dsetResize` when growing by the leading dimension of a
batch. -/
theorem dsetResize_grow (dset : Arr) (m : Nat) :
    dsetResize dset (dset.lead + m)
      = ⟨dset.dtype, (dset.lead + m) :: dset.shape.tail,
         dset.data ++ List.replicate (m * dset.shape.tail.prod) 0⟩ := by
  simp [dsetResize, Nat.add_sub_cancel_left]

/-- Effect of the resize-then-write sequence `flush` performs on an existing
dataset when the slice assignment succeeds: the dataset keeps its dtype and
trailing shape, grows by the batch's rows and gets the batch's payload
appended. -/
theorem writeExisting_profile {dset dataArray dsetW : Arr}
    {dataItems : List Arr} (hdwf : dset.shape ≠ [] ∧ dset.wf)
    (hca : concatenate dataItems = some dataArray)
    (hwfItems : ∀ a ∈ dataItems, a.wf)
    (hassign : sliceAssign (dsetResize dset (dset.lead + dataArray.lead))
        dset.lead (dset.lead + dataArray.lead) dataArray = some dsetW) :
    dsetW.wf ∧ dsetW.shape ≠ [] ∧
      sameProfile [dsetW] ([dset] ++ dataItems) := by
  obtain ⟨hsha, hdta, hw⟩ := sliceAssign_eq_some hassign
  rw [dsetResize_grow] at hsha hdta hw
  simp only [List.tail_cons] at hsha hdta hw
  have hdlen : dset.data.length = dset.lead * dset.shape.tail.prod := by
    have h2 := hdwf.2
    unfold Arr.wf at h2
    rw [h2, dset.shape_eq hdwf.1, List.prod_cons]
    rfl
  have hdAwf : dataArray.wf := concatenate_wf hca hwfItems
  have hdAlen : dataArray.data.length
      = dataArray.lead * dset.shape.tail.prod := by
    have h2 := hdAwf
    unfold Arr.wf at h2
    rw [h2, hsha, List.prod_cons, Nat.add_sub_cancel_left]
  have htake : (dset.data ++
      List.replicate (dataArray.lead * dset.shape.tail.prod) (0 : Val)).take
        (dset.lead * dset.shape.tail.prod) = dset.data :=
    List.take_left' hdlen
  have hdrop : (dset.data ++
      List.replicate (dataArray.lead * dset.shape.tail.prod) (0 : Val)).drop
        ((dset.lead + dataArray.lead) * dset.shape.tail.prod) = [] := by
    apply List.drop_eq_nil_of_le
    simp [hdlen, Nat.add_mul]
  have hWeq : dsetW = ⟨dset.dtype,
      (dset.lead + dataArray.lead) :: dset.shape.tail,
      dset.data ++ dataArray.data⟩ := by
    rw [hw]
    simp only [htake, hdrop, List.append_nil]
  have hd : dataArray.data = tdata dataItems := by
    have h1 := (sameProfile_concat hca).1
    simpa [tdata] using h1
  have hr : dataArray.lead = trows dataItems := by
    have h1 := (sameProfile_concat hca).2.1
    simpa [trows] using h1
  refine ⟨?_, ?_, ?_, ?_, ?_⟩
  · unfold Arr.wf
    rw [hWeq]
    simp [List.length_append, hdlen, hdAlen, List.prod_cons, Nat.add_mul]
  · rw [hWeq]; simp
  · simp [tdata, hWeq, hd]
  · have hl : dsetW.lead = dset.lead + dataArray.lead := by rw [hWeq]; rfl
    simp only [trows, List.map_cons, List.map_nil, List.sum_cons, List.sum_nil,
      Nat.add_zero, List.map_append, List.sum_append]
    rw [hl, hr]
    rfl
  · simp [tmeta, hWeq]

/-- Effect of a successful `flushTables` pass: for every table name, the
dataset now on disk carries the profile of the old dataset followed by that
table's pending batch; well-formedness of the file is preserved. -/
theorem flushTables_ok :
    ∀ (sd : List (String × List Arr)) (file file' : Hdf5File),
      HDF5Recorder.flushTables file sd = .ok file' →
      keysNodup sd → wfFile file → sdWF sd →
      wfFile file' ∧
        ∀ t, sameProfile (fileLookup file' t).toList
              ((fileLookup file t).toList ++ pendingOf sd t)
  | [], file, file', h, _, hwf, _ => by
    simp only [HDF5Recorder.flushTables] at h
    injection h with h
    subst h
    exact ⟨hwf, fun t => by simp [pendingOf, sameProfile_refl]⟩
  | (key, dataItems) :: rest, file, file', h, hnd, hwf, hsd => by
    have hnd' : key ∉ rest.map Prod.fst ∧ keysNodup rest := by
      have := hnd
      simp only [keysNodup, List.map_cons, List.nodup_cons] at this
      exact this
    have hsdHd : ∀ a ∈ dataItems, a.wf := hsd (key, dataItems) (by simp)
    have hsdTl : sdWF rest := fun q hq => hsd q (by simp [hq])
    simp only [HDF5Recorder.flushTables] at h
    cases hca : concatenate dataItems with
    | none => simp only [hca] at h; exact absurd h (by simp)
    | some dataArray =>
      simp only [hca] at h
      obtain ⟨a₀, items', hitems, hdt, hsh, hdat, hall⟩ := concatenate_eq_some hca
      have hdAwf : dataArray.wf := concatenate_wf hca hsdHd
      have hdAnn : dataArray.shape ≠ [] := by rw [hsh]; simp
      have hprof : sameProfile [dataArray] dataItems := sameProfile_concat hca
      cases hfl : fileLookup file key with
      | none =>
        simp only [hfl] at h
        obtain ⟨hwf', hih⟩ := flushTables_ok rest _ file' h hnd'.2
          (wfFile_append_singleton key hwf hdAnn hdAwf) hsdTl
        refine ⟨hwf', fun t => ?_⟩
        by_cases ht : t = key
        · subst ht
          have h1 : fileLookup (file ++ [(t, dataArray)]) t = some dataArray := by
            rw [fileLookup_append_of_none _ hfl]
            simp [fileLookup]
          have h2 : pendingOf rest t = [] := pendingOf_eq_nil hnd'.1
          have := hih t
          rw [h1, h2] at this
          simp only [Option.toList_some, List.append_nil] at this
          refine sameProfile_trans this ?_
          rw [hfl]
          simpa [pendingOf] using hprof
        · have h1 : fileLookup (file ++ [(key, dataArray)]) t = fileLookup file t :=
            fileLookup_append_singleton_ne _ ht
          have := hih t
          rw [h1] at this
          have hpend : pendingOf ((key, dataItems) :: rest) t = pendingOf rest t := by
            simp [pendingOf, beq_eq_false_iff_ne.mpr fun hh => ht hh.symm]
          rw [hpend]
          exact this
      | some dset =>
        simp only [hfl] at h
        have hdwf := wfFile_lookup hwf hfl
        cases hassign : sliceAssign (dsetResize dset (dset.lead + dataArray.lead))
            dset.lead (dset.lead + dataArray.lead) dataArray with
        | none => simp only [hassign] at h; exact absurd h (by simp)
        | some dsetW =>
          simp only [hassign] at h
          obtain ⟨hWwf, hWnn, hWprof⟩ :=
            writeExisting_profile hdwf hca hsdHd hassign
          obtain ⟨hwf', hih⟩ := flushTables_ok rest _ file' h hnd'.2
            (wfFile_fileSet key hwf hWnn hWwf) hsdTl
          refine ⟨hwf', fun t => ?_⟩
          by_cases ht : t = key
          · subst ht
            have h1 : fileLookup (fileSet file t dsetW) t = some dsetW :=
              fileLookup_fileSet_self _ hfl
            have h2 : pendingOf rest t = [] := pendingOf_eq_nil hnd'.1
            have hI := hih t
            rw [h1, h2] at hI
            simp only [Option.toList_some, List.append_nil] at hI
            refine sameProfile_trans hI ?_
            rw [hfl]
            simpa [pendingOf] using hWprof
          · have h1 : fileLookup (fileSet file key dsetW) t = fileLookup file t :=
              fileLookup_fileSet_of_ne _ ht
            have hI := hih t
            rw [h1] at hI
            have hpend : pendingOf ((key, dataItems) :: rest) t
                = pendingOf rest t := by
              simp [pendingOf, beq_eq_false_iff_ne.mpr fun hh => ht hh.symm]
            rw [hpend]
            exact hI

/-! ### The run invariant

For a recorder whose file was created by its own `open()` (hence truncated),
the dataset on disk followed by the pending batch of each table carries
exactly the profile of the writes addressed to that table so far. -/

/-- Invariant tying an open recorder state to the sequence `ws` of writes
accepted since the file was created. -/
structure RecInv (r : HDF5Recorder) (ws : List (String × Arr)) : Prop where
  isOpen : r.isOpen = true
  wfF : wfFile r.file
  nodup : keysNodup r.storeData
  wfSD : sdWF r.storeData
  prof : ∀ t, sameProfile (virt r t) (wsFor t ws)

theorem wsFor_append_one (t : String) (ws : List (String × Arr))
    (c : String × Arr) :
    wsFor t (ws ++ [c]) = wsFor t ws ++ if c.1 == t then [c.2] else [] := by
  by_cases h : c.1 == t <;> simp [wsFor, List.filter_append, h]

theorem inv_extend {r : HDF5Recorder} {ws : List (String × Arr)}
    (inv : RecInv r ws) (d : String) (a : Arr) (ha : a.wf) :
    (r.extend d a).1 = none ∧ RecInv (r.extend d a).2 (ws ++ [(d, a)]) := by
  have hE : r.extend d a
      = (none, { r with storeData := storePush r.storeData d a }) := by
    simp [HDF5Recorder.extend, inv.isOpen]
  rw [hE]
  refine ⟨rfl, ?_⟩
  refine ⟨inv.isOpen, inv.wfF, keysNodup_storePush d a inv.nodup,
    sdWF_storePush inv.wfSD ha, fun t => ?_⟩
  have hws := wsFor_append_one t ws (d, a)
  by_cases ht : t = d
  · subst ht
    have hv : virt { r with storeData := storePush r.storeData t a } t
        = virt r t ++ [a] := by
      simp [virt, pendingOf_storePush_self]
    rw [hv, hws]
    simp only [beq_self_eq_true, if_true]
    exact sameProfile_append_one a (inv.prof t)
  · have hv : virt { r with storeData := storePush r.storeData d a } t
        = virt r t := by
      simp [virt, pendingOf_storePush_of_ne _ _ ht]
    have hne : (d == t) = false := beq_eq_false_iff_ne.mpr fun hh => ht hh.symm
    rw [hv, hws]
    simp only [hne, Bool.false_eq_true, if_false, List.append_nil]
    exact inv.prof t

theorem inv_flush {r r' : HDF5Recorder} {ws : List (String × Arr)}
    (inv : RecInv r ws) (h : r.flush = (none, r')) :
    RecInv r' ws ∧ r'.storeData = [] := by
  unfold HDF5Recorder.flush at h
  rw [inv.isOpen] at h
  simp only [Bool.not_true, Bool.false_eq_true, if_false] at h
  by_cases hE : r.storeData.isEmpty
  · rw [if_pos hE] at h
    have hr : r' = r := by
      have := congrArg Prod.snd h
      simpa using this.symm
    subst hr
    exact ⟨inv, List.isEmpty_iff.mp hE⟩
  · rw [if_neg hE] at h
    cases hft : HDF5Recorder.flushTables r.file r.storeData with
    | error pe =>
      obtain ⟨e₁, f₁⟩ := pe
      rw [hft] at h
      simp at h
    | ok file' =>
      rw [hft] at h
      have hr : r' = ⟨file', [], true⟩ := by
        have := congrArg Prod.snd h
        simpa using this.symm
      subst hr
      obtain ⟨hwf', hprof'⟩ :=
        flushTables_ok r.storeData r.file file' hft inv.nodup inv.wfF inv.wfSD
      refine ⟨⟨rfl, hwf', by simp [keysNodup], by intro p hp; simp at hp,
        fun t => ?_⟩, rfl⟩
      have hv : virt ⟨file', [], true⟩ t = (fileLookup file' t).toList := by
        simp [virt, pendingOf]
      rw [hv]
      exact sameProfile_trans (hprof' t) (inv.prof t)

theorem inv_open (f0 : Hdf5File) :
    HDF5Recorder.openRecorder (freshRec f0)
      = (none, ⟨[], [], true⟩) ∧ RecInv ⟨[], [], true⟩ [] := by
  refine ⟨by simp [HDF5Recorder.openRecorder, freshRec], ?_⟩
  refine ⟨rfl, ?_, by simp [keysNodup], ?_, fun t => ?_⟩
  · intro p hp; simp at hp
  · intro p hp; simp at hp
  · simp [virt, fileLookup, pendingOf, wsFor]
    exact sameProfile_refl []

theorem inv_extendAll {r : HDF5Recorder} {ws : List (String × Arr)}
    (inv : RecInv r ws) (calls : List (String × Arr))
    (hwf : ∀ c ∈ calls, (c.2 : Arr).wf) :
    RecInv (extendAll r calls) (ws ++ calls) := by
  induction calls generalizing r ws with
  | nil => simpa [extendAll] using inv
  | cons c rest ih =>
    have h1 := inv_extend inv c.1 c.2 (hwf c (by simp))
    have hfold : extendAll r (c :: rest) = extendAll (r.extend c.1 c.2).2 rest := by
      simp [extendAll]
    rw [hfold]
    have h2 := ih h1.2 fun x hx => hwf x (by simp [hx])
    have hl : ws ++ [(c.1, c.2)] ++ rest = ws ++ c :: rest := by
      simp
    rwa [hl] at h2

/-- One loop iteration that does not raise preserves the invariant, with the
received write (if any) appended to the write history. -/
theorem loopStep_inv {F : Nat} {s : LoopState} {it : LoopIter}
    {ws : List (String × Arr)} {s₁ : LoopState}
    (inv : RecInv s.recorder ws) (hwf : ∀ w ∈ it.msg.toList, (w.2 : Arr).wf)
    (h : loopStep F s it = (none, s₁)) :
    RecInv s₁.recorder (ws ++ it.msg.toList) := by
  cases hm : it.msg with
  | none =>
    simp only [loopStep, hm] at h
    by_cases hc : s.flushTime ≤ it.tCheck
    · rw [if_pos hc] at h
      cases hf : s.recorder.flush with
      | mk e₂ rec₂ =>
        rw [hf] at h
        cases e₂ with
        | some e₃ => simp at h
        | none =>
          have hs₁ : s₁.recorder = rec₂ := by
            have := congrArg Prod.snd h
            simp at this
            rw [← this]
          rw [hs₁]
          simpa using (inv_flush inv hf).1
    · rw [if_neg hc] at h
      have hs₁ : s₁.recorder = s.recorder := by
        have := congrArg Prod.snd h
        simp at this
        rw [← this]
      rw [hs₁]
      simpa using inv
  | some c =>
    obtain ⟨d, a⟩ := c
    have hwa : a.wf := hwf (d, a) (by simp [hm])
    have hx := inv_extend inv d a hwa
    simp only [loopStep, hm] at h
    cases hE : s.recorder.extend d a with
    | mk e₃ rec₃ =>
      have he₃ : e₃ = none := by rw [hE] at hx; exact hx.1
      subst he₃
      have hinv₃ : RecInv rec₃ (ws ++ [(d, a)]) := by
        rw [hE] at hx; exact hx.2
      rw [hE] at h
      simp only at h
      by_cases hc : s.flushTime ≤ it.tCheck
      · rw [if_pos hc] at h
        cases hf : rec₃.flush with
        | mk e₂ rec₂ =>
          rw [hf] at h
          cases e₂ with
          | some e₄ => simp at h
          | none =>
            have hs₁ : s₁.recorder = rec₂ := by
              have := congrArg Prod.snd h
              simp at this
              rw [← this]
            rw [hs₁]
            simpa [hm] using (inv_flush hinv₃ hf).1
      · rw [if_neg hc] at h
        have hs₁ : s₁.recorder = rec₃ := by
          have := congrArg Prod.snd h
          simp at this
          rw [← this]
        rw [hs₁]
        simpa [hm] using hinv₃

/-- A loop run that does not raise preserves the invariant, with all received
writes appended to the write history in arrival order. -/
theorem loopRun_inv {F : Nat} :
    ∀ (iters : List LoopIter) (s : LoopState) (ws : List (String × Arr))
      (s' : LoopState), RecInv s.recorder ws →
      (∀ w ∈ iters.filterMap LoopIter.msg, (w.2 : Arr).wf) →
      loopRun F s iters = (none, s') →
      RecInv s'.recorder (ws ++ iters.filterMap LoopIter.msg) := by
  intro iters
  induction iters with
  | nil =>
    intro s ws s' inv _ h
    simp only [loopRun] at h
    have hs : s' = s := by
      have := congrArg Prod.snd h
      simpa using this.symm
    subst hs
    simpa using inv
  | cons it rest ih =>
    intro s ws s' inv hwf h
    have hmsg : (it :: rest).filterMap LoopIter.msg
        = it.msg.toList ++ rest.filterMap LoopIter.msg := by
      cases hm : it.msg <;> simp [List.filterMap_cons, hm]
    rw [hmsg] at hwf
    simp only [loopRun] at h
    cases hstep : loopStep F s it with
    | mk e₁ s₁ =>
      rw [hstep] at h
      cases e₁ with
      | some e₂ => simp at h
      | none =>
        simp only at h
        have hinv₁ : RecInv s₁.recorder (ws ++ it.msg.toList) :=
          loopStep_inv inv
            (fun w hw => hwf w (List.mem_append.mpr (Or.inl hw))) hstep
        have h2 := ih s₁ (ws ++ it.msg.toList) s' hinv₁
          (fun w hw => hwf w (List.mem_append.mpr (Or.inr hw))) h
        rw [hmsg, ← List.append_assoc]
        exact h2

/-- Reading a table profile off a file: either the write history for the table
is empty and the table does not exist, or the dataset is the row-wise
concatenation of the history. -/
theorem profile_unpack {f : Hdf5File} {t : String} {L : List Arr}
    (hwfF : wfFile f)
    (hp : sameProfile (fileLookup f t).toList L) :
    (L = [] → fileLookup f t = none) ∧
    (∀ w ws', L = w :: ws' → ∃ a, fileLookup f t = some a ∧
      a.dtype = w.dtype ∧ a.shape = trows L :: w.shape.tail ∧
      a.data = tdata L) := by
  constructor
  · intro hL
    subst hL
    have hm := hp.2.2
    rw [show tmeta ([] : List Arr) = none from rfl] at hm
    have hnil := (tmeta_eq_none_iff _).mp hm
    cases hfl : fileLookup f t with
    | none => rfl
    | some a => rw [hfl] at hnil; simp at hnil
  · intro w ws' hL
    subst hL
    cases hfl : fileLookup f t with
    | none =>
      rw [hfl] at hp
      have hm := hp.2.2
      simp [tmeta] at hm
    | some a =>
      rw [hfl] at hp
      have hwa := wfFile_lookup hwfF hfl
      have hm := hp.2.2
      simp only [Option.toList_some, tmeta, List.head?_cons,
        Option.map_some', Option.some.injEq, Prod.mk.injEq] at hm
      have hr := hp.2.1
      have hlead : a.lead = trows (w :: ws') := by
        simpa [trows] using hr
      have hdata : a.data = tdata (w :: ws') := by
        simpa [tdata] using hp.1
      refine ⟨a, rfl, hm.1, ?_, hdata⟩
      rw [a.shape_eq hwa.1, hlead, hm.2]

/-- Summary of a complete, exception-free `_active_hdf5_recorder` run on a
fresh file: afterwards the recorder is closed with an empty buffer, and each
table of the file carries the profile of the writes addressed to it. -/
theorem activeRun_summary {F t0 : Nat} {iters : List LoopIter}
    {recF : HDF5Recorder}
    (hwf : ∀ w ∈ iters.filterMap LoopIter.msg, (w.2 : Arr).wf)
    (h : activeRun F t0 [] iters = (none, recF)) :
    recF.isOpen = false ∧ recF.storeData = [] ∧ wfFile recF.file ∧
      ∀ t, sameProfile (fileLookup recF.file t).toList
            (wsFor t (iters.filterMap LoopIter.msg)) := by
  have hopen : HDF5Recorder.openRecorder ⟨[], [], false⟩
      = (none, ⟨[], [], true⟩) := by
    simp [HDF5Recorder.openRecorder]
  unfold activeRun at h
  rw [hopen] at h
  simp only at h
  cases hrun : loopRun F ⟨⟨[], [], true⟩, t0 + F, []⟩ iters with
  | mk eL s =>
    rw [hrun] at h
    cases hclose : s.recorder.close with
    | mk eC recF' =>
      rw [hclose] at h
      simp only at h
      have heq : (eC.or eL, recF') = (none, recF) := h
      have heC : eC = none ∧ eL = none := by
        have h1 := congrArg Prod.fst heq
        simp only at h1
        cases eC <;> cases eL <;> simp_all [Option.or]
      have hrecF : recF' = recF := by
        have := congrArg Prod.snd heq
        simpa using this
      subst hrecF
      obtain ⟨heC, heL⟩ := heC
      subst heC heL
      have hinvO : RecInv (⟨⟨[], [], true⟩, t0 + F, []⟩ : LoopState).recorder [] :=
        (inv_open []).2
      have hinvS : RecInv s.recorder (iters.filterMap LoopIter.msg) := by
        have := loopRun_inv iters _ [] s hinvO hwf hrun
        simpa using this
      unfold HDF5Recorder.close at hclose
      rw [hinvS.isOpen] at hclose
      simp only [Bool.not_true, Bool.false_eq_true, if_false] at hclose
      cases hf : s.recorder.flush with
      | mk eF rF =>
        rw [hf] at hclose
        cases eF with
        | some e => simp at hclose
        | none =>
          simp only at hclose
          have hrF : recF' = { rF with isOpen := false } := by
            have := congrArg Prod.snd hclose
            simpa using this.symm
          obtain ⟨hinvF, hsdF⟩ := inv_flush hinvS hf
          subst hrF
          refine ⟨rfl, by simpa using hsdF, hinvF.wfF, fun t => ?_⟩
          have hv := hinvF.prof t
          rw [virt, hsdF] at hv
          simp only [pendingOf, List.append_nil] at hv
          exact hv

/-! ### The flush scheduler -/

/-- A physically meaningful iteration trace: `time.monotonic()` is monotone,
so within one iteration the check-time precedes the completion-time, and each
iteration's times come after the previous iteration's. -/
def validIters : Nat → List LoopIter → Prop
  | _, [] => True
  | t, it :: rest =>
    t ≤ it.tCheck ∧ it.tCheck ≤ it.tDone ∧ validIters it.tDone rest

instance instDecidableValidIters :
    (t : Nat) → (l : List LoopIter) → Decidable (validIters t l)
  | _, [] => .isTrue trivial
  | _, it :: rest =>
    have := instDecidableValidIters it.tDone rest
    inferInstanceAs (Decidable (_ ∧ _ ∧ _))

/-- Adjacent flush completion times (most recent first) are at least `F`
apart. -/
def gapsOK (F : Nat) : List Nat → Prop
  | c2 :: c1 :: rest => c1 + F ≤ c2 ∧ gapsOK F (c1 :: rest)
  | _ => True

instance instDecidableGapsOK :
    (F : Nat) → (l : List Nat) → Decidable (gapsOK F l)
  | _, [] => .isTrue trivial
  | _, [_] => .isTrue trivial
  | F, _ :: c1 :: rest =>
    have := instDecidableGapsOK F (c1 :: rest)
    inferInstanceAs (Decidable (_ ∧ _))

/-- Invariant of the loop state used for the scheduler-floor argument: the
recorded completion gaps are at least `F`, and the pending deadline is at
least `F` after the most recent completion. -/
def schedInv (F : Nat) (s : LoopState) : Prop :=
  gapsOK F s.flushes ∧
    match s.flushes with
    | [] => True
    | c :: _ => c + F ≤ s.flushTime

theorem loopStep_sched {F : Nat} {s : LoopState} {it : LoopIter}
    {e : Option Err} {s₁ : LoopState} (hinv : schedInv F s)
    (hit : it.tCheck ≤ it.tDone) (h : loopStep F s it = (e, s₁)) :
    schedInv F s₁ := by
  unfold loopStep at h
  cases hm : (match it.msg with
      | some (dataset, data) => s.recorder.extend dataset data
      | none => (none, s.recorder)) with
  | mk e₀ rec' =>
    rw [hm] at h
    cases e₀ with
    | some e₂ =>
      have hs₁ : s₁ = { s with recorder := rec' } := by
        have := congrArg Prod.snd h
        simpa using this.symm
      subst hs₁
      exact hinv
    | none =>
      simp only at h
      by_cases hc : s.flushTime ≤ it.tCheck
      · rw [if_pos hc] at h
        cases hf : rec'.flush with
        | mk eF rF =>
          rw [hf] at h
          cases eF with
          | some e₂ =>
            have hs₁ : s₁ = { s with recorder := rF } := by
              have := congrArg Prod.snd h
              simpa using this.symm
            subst hs₁
            exact hinv
          | none =>
            have hs₁ : s₁ = ⟨rF, it.tDone + F, it.tDone :: s.flushes⟩ := by
              have := congrArg Prod.snd h
              simpa using this.symm
            subst hs₁
            obtain ⟨hg, hd⟩ := hinv
            constructor
            · cases hfs : s.flushes with
              | nil => simp [gapsOK]
              | cons c cs =>
                rw [hfs] at hg hd
                refine ⟨?_, hg⟩
                calc c + F ≤ s.flushTime := hd
                  _ ≤ it.tCheck := hc
                  _ ≤ it.tDone := hit
            · simp
      · rw [if_neg hc] at h
        have hs₁ : s₁ = { s with recorder := rec' } := by
          have := congrArg Prod.snd h
          simpa using this.symm
        subst hs₁
        exact hinv

theorem loopRun_sched {F : Nat} :
    ∀ (iters : List LoopIter) (s : LoopState) (t : Nat),
      schedInv F s → validIters t iters →
      schedInv F (loopRun F s iters).2 := by
  intro iters
  induction iters with
  | nil => intro s t hinv _; simpa [loopRun] using hinv
  | cons it rest ih =>
    intro s t hinv hv
    obtain ⟨hv1, hv2, hv3⟩ := hv
    simp only [loopRun]
    cases hstep : loopStep F s it with
    | mk e₁ s₁ =>
      have hinv₁ : schedInv F s₁ := loopStep_sched hinv hv2 hstep
      cases e₁ with
      | some e₂ => simpa using hinv₁
      | none =>
        simp only
        exact ih s₁ it.tDone hinv₁ hv3

theorem expandDims_wf {a : Arr} (h : a.wf) : (expandDims a).wf := by
  unfold Arr.wf at h ⊢
  simp [expandDims, h]

theorem appendAll_eq (r : HDF5Recorder) (calls : List (String × Arr)) :
    appendAll r calls
      = extendAll r (calls.map fun c => (c.1, expandDims c.2)) := by
  induction calls generalizing r with
  | nil => simp [appendAll, extendAll]
  | cons c rest ih =>
    simp only [appendAll, extendAll, List.foldl_cons, List.map_cons]
    have hstep : (r.append c.1 c.2).2 = (r.extend c.1 (expandDims c.2)).2 := rfl
    rw [hstep]
    simpa [appendAll, extendAll] using ih (r.extend c.1 (expandDims c.2)).2

theorem wsFor_map_expand (T : String) (calls : List (String × Arr)) :
    wsFor T (calls.map fun c => (c.1, expandDims c.2))
      = (wsFor T calls).map expandDims := by
  induction calls with
  | nil => simp [wsFor]
  | cons c rest ih =>
    by_cases h : c.1 == T <;>
      simp only [wsFor, List.map_cons, List.filter_cons, h] at ih ⊢ <;>
      simp [ih, wsFor]

theorem trows_map_expand (l : List Arr) :
    trows (l.map expandDims) = l.length := by
  induction l with
  | nil => simp [trows]
  | cons a rest ih =>
    simp only [List.map_cons, trows, List.sum_cons] at ih ⊢
    rw [show (expandDims a).lead = 1 from rfl, ih, List.length_cons]
    omega

/-- Summary of the synchronous scenario: a freshly opened recorder absorbs a
sequence of `extend` calls and a single successful `flush`; the persisted
tables carry exactly the profiles of the calls. -/
theorem syncFlush_summary {calls : List (String × Arr)}
    {recF : HDF5Recorder}
    (hwf : ∀ c ∈ calls, (c.2 : Arr).wf)
    (h : (extendAll (⟨[], [], true⟩ : HDF5Recorder) calls).flush
      = (none, recF)) :
    wfFile recF.file ∧ recF.storeData = [] ∧
      ∀ t, sameProfile (fileLookup recF.file t).toList (wsFor t calls) := by
  have hinv := inv_extendAll (inv_open []).2 calls hwf
  simp only [List.nil_append] at hinv
  obtain ⟨hinv', hsd⟩ := inv_flush hinv h
  refine ⟨hinv'.wfF, hsd, fun t => ?_⟩
  have hv := hinv'.prof t
  rw [virt, hsd] at hv
  simpa [pendingOf] using hv

/-! ### Claim theorems -/

/-- A concrete (5,) float64 batch. -/
def arrX : Arr := ⟨Dtype.float64, [5], [0, 1, 2, 3, 4]⟩

/-- A concrete float64 scalar (zero-dimensional array). -/
def scalarArr : Arr := ⟨Dtype.float64, [], [7]⟩

/-- C1: Shutdown completeness.  For every exception-free run of the
asynchronous pipeline (`_active_hdf5_recorder` fed by the handle's FIFO queue,
so the received writes are exactly the stores issued before `close()`, in
order), every table of the persisted file after `close()` returns is exactly
the row-wise concatenation of the writes addressed to it — each write
reflected exactly once, no table for names never written. -/
theorem C1_shutdown_completeness (F t0 : Nat) (iters : List LoopIter)
    (recF : HDF5Recorder) (t : String)
    (hwf : ∀ w ∈ iters.filterMap LoopIter.msg, (w.2 : Arr).wf)
    (h : activeRun F t0 [] iters = (none, recF)) :
    (wsFor t (iters.filterMap LoopIter.msg) = [] →
      fileLookup recF.file t = none) ∧
    (∀ w ws', wsFor t (iters.filterMap LoopIter.msg) = w :: ws' →
      ∃ a, fileLookup recF.file t = some a ∧ a.dtype = w.dtype ∧
        a.shape = trows (w :: ws') :: w.shape.tail ∧
        a.data = tdata (w :: ws')) := by
  obtain ⟨_, _, hwfF, hprof⟩ := activeRun_summary hwf h
  have hu := profile_unpack hwfF (hprof t)
  refine ⟨hu.1, fun w ws' hL => ?_⟩
  obtain ⟨a, h1, h2, h3, h4⟩ := hu.2 w ws' hL
  rw [hL] at h3 h4
  exact ⟨a, h1, h2, h3, h4⟩

/-- The iteration trace of C1's concrete scenario: ten writes of a (5,)
float64 batch to table "x", no loop flush before the sentinel. -/
def iters10 : List LoopIter := List.replicate 10 ⟨some ("x", arrX), 0, 0⟩

/-- The final recorder state of C1's concrete scenario. -/
def recC1 : HDF5Recorder := (activeRun 2 0 [] iters10).2

theorem C1_shutdown_completeness_witness :
    ∃ a, fileLookup recC1.file "x" = some a ∧ a.dtype = Dtype.float64 ∧
      a.shape = [50] := by
  have h := C1_shutdown_completeness 2 0 iters10 recC1 "x" (by decide)
    (by decide)
  obtain ⟨a, h1, h2, h3, _⟩ := h.2 arrX (List.replicate 9 arrX) (by decide)
  refine ⟨a, h1, h2, ?_⟩
  rw [h3]
  decide

/-- C2: For every sequence of `extend` calls on a freshly opened recorder
followed by one successful `flush`, each table holds exactly the concatenation
of the batches extended to it, in arrival order, so its persisted length is
the sum of the leading dimensions of those batches. -/
theorem C2_extend_then_flush (calls : List (String × Arr)) (T : String)
    (recF : HDF5Recorder)
    (hwf : ∀ c ∈ calls, (c.2 : Arr).wf)
    (h : (extendAll (HDF5Recorder.openRecorder (freshRec [])).2 calls).flush
      = (none, recF)) :
    (wsFor T calls = [] → fileLookup recF.file T = none) ∧
    (∀ w ws', wsFor T calls = w :: ws' →
      ∃ a, fileLookup recF.file T = some a ∧ a.dtype = w.dtype ∧
        a.shape = trows (w :: ws') :: w.shape.tail ∧
        a.data = tdata (w :: ws')) := by
  have hopened : (HDF5Recorder.openRecorder (freshRec [])).2
      = (⟨[], [], true⟩ : HDF5Recorder) := rfl
  rw [hopened] at h
  obtain ⟨hwfF, _, hprof⟩ := syncFlush_summary hwf h
  have hu := profile_unpack hwfF (hprof T)
  refine ⟨hu.1, fun w ws' hL => ?_⟩
  obtain ⟨a, h1, h2, h3, h4⟩ := hu.2 w ws' hL
  rw [hL] at h3 h4
  exact ⟨a, h1, h2, h3, h4⟩

/-- The final recorder state of C2's concrete scenario: two (5,) batches to
table "x", flushed once. -/
def recC2 : HDF5Recorder :=
  ((extendAll (HDF5Recorder.openRecorder (freshRec [])).2
    [("x", arrX), ("x", arrX)]).flush).2

theorem C2_extend_then_flush_witness :
    ∃ a, fileLookup recC2.file "x" = some a ∧ a.dtype = Dtype.float64 ∧
      a.shape = [10] ∧ a.data = arrX.data ++ arrX.data := by
  have h := C2_extend_then_flush [("x", arrX), ("x", arrX)] "x" recC2
    (by decide) (by decide)
  obtain ⟨a, h1, h2, h3, h4⟩ := h.2 arrX [arrX] (by decide)
  refine ⟨a, h1, h2, by rw [h3]; decide, by rw [h4]; decide⟩

/-- C3: For every sequence of `append` calls on a freshly opened recorder
followed by one successful `flush`, each table's persisted length equals the
number of appends addressed to it (each append contributes exactly one row,
whose trailing shape is the appended value's full shape); in particular a
zero-dimensional (scalar) value is a legal append argument. -/
theorem C3_append_then_flush (calls : List (String × Arr)) (T : String)
    (recF : HDF5Recorder)
    (hwf : ∀ c ∈ calls, (c.2 : Arr).wf)
    (h : (appendAll (HDF5Recorder.openRecorder (freshRec [])).2 calls).flush
      = (none, recF)) :
    (wsFor T calls = [] → fileLookup recF.file T = none) ∧
    (∀ w ws', wsFor T calls = w :: ws' →
      ∃ a, fileLookup recF.file T = some a ∧ a.dtype = w.dtype ∧
        a.shape = (w :: ws').length :: w.shape ∧
        a.data = tdata ((w :: ws').map expandDims)) := by
  have hopened : (HDF5Recorder.openRecorder (freshRec [])).2
      = (⟨[], [], true⟩ : HDF5Recorder) := rfl
  rw [hopened, appendAll_eq] at h
  have hwf' : ∀ c ∈ (calls.map fun c => (c.1, expandDims c.2)), (c.2 : Arr).wf := by
    intro c hc
    obtain ⟨c₀, hc₀, hceq⟩ := List.mem_map.mp hc
    rw [← hceq]
    exact expandDims_wf (hwf c₀ hc₀)
  obtain ⟨hwfF, _, hprof⟩ := syncFlush_summary hwf' h
  have hu := profile_unpack hwfF (hprof T)
  rw [wsFor_map_expand] at hu
  refine ⟨fun hL => hu.1 (by rw [hL]; rfl), fun w ws' hL => ?_⟩
  have hL' : (wsFor T calls).map expandDims
      = expandDims w :: ws'.map expandDims := by rw [hL]; rfl
  obtain ⟨a, h1, h2, h3, h4⟩ := hu.2 (expandDims w) (ws'.map expandDims) hL'
  rw [hL'] at h3 h4
  refine ⟨a, h1, h2, ?_, ?_⟩
  · rw [h3, show (expandDims w).shape.tail = w.shape from rfl,
      show expandDims w :: ws'.map expandDims = (w :: ws').map expandDims
        from rfl, trows_map_expand, List.length_cons]
  · rw [h4]
    rfl

/-- The final recorder state of C3's concrete scenario: three scalar appends
to table "y", flushed once. -/
def recC3 : HDF5Recorder :=
  ((appendAll (HDF5Recorder.openRecorder (freshRec [])).2
    [("y", scalarArr), ("y", scalarArr), ("y", scalarArr)]).flush).2

theorem C3_append_then_flush_witness :
    ∃ a, fileLookup recC3.file "y" = some a ∧ a.dtype = Dtype.float64 ∧
      a.shape = [3] ∧ a.data = [7, 7, 7] := by
  have h := C3_append_then_flush
    [("y", scalarArr), ("y", scalarArr), ("y", scalarArr)] "y" recC3
    (by decide) (by decide)
  obtain ⟨a, h1, h2, h3, h4⟩ := h.2 scalarArr [scalarArr, scalarArr] (by decide)
  refine ⟨a, h1, h2, by rw [h3]; decide, by rw [h4]; decide⟩

/-- C4 (counterexample): `extend` called with a zero-dimensional (scalar)
array on a freshly opened recorder does NOT fail — it raises no error at all
(the array is merely buffered), refuting the claim that the call fails with
`InvalidOperationError`. -/
theorem C4_extend_scalar_raises_nothing :
    ((HDF5Recorder.openRecorder (freshRec [])).2.extend "d" scalarArr).1
      = none ∧ scalarArr.shape = [] := by decide

/-- C4 (amended): `extend` with a zero-dimensional array on an open recorder
succeeds and buffers the array; the failure surfaces only at the next flush,
which raises the concatenation error (`np.concatenate` rejects
zero-dimensional inputs) and leaves the buffer unchanged. -/
theorem C4_extend_scalar_defers_error (r : HDF5Recorder) (d : String)
    (a : Arr) (hopen : r.isOpen = true) (hbuf : r.storeData = [])
    (hshape : a.shape = []) :
    (r.extend d a).1 = none ∧
    (r.extend d a).2.storeData = [(d, [a])] ∧
    ((r.extend d a).2.flush).1 = some Err.concatenateError ∧
    ((r.extend d a).2.flush).2.storeData = [(d, [a])] := by
  have hE : r.extend d a = (none, { r with storeData := [(d, [a])] }) := by
    simp [HDF5Recorder.extend, hopen, hbuf, storePush]
  rw [hE]
  have hconc : concatenate [a] = none := by
    simp [concatenate, hshape]
  have hF : ({ r with storeData := [(d, [a])] } : HDF5Recorder).flush
      = (some Err.concatenateError,
         { r with storeData := [(d, [a])], file := r.file }) := by
    simp [HDF5Recorder.flush, hopen, HDF5Recorder.flushTables, hconc]
  rw [hF]
  exact ⟨rfl, rfl, rfl, rfl⟩

theorem C4_extend_scalar_defers_error_witness :
    (((⟨[], [], true⟩ : HDF5Recorder)).extend "d" scalarArr).1 = none ∧
    ((⟨[], [], true⟩ : HDF5Recorder).extend "d" scalarArr).2.storeData
      = [("d", [scalarArr])] ∧
    (((⟨[], [], true⟩ : HDF5Recorder).extend "d" scalarArr).2.flush).1
      = some Err.concatenateError ∧
    (((⟨[], [], true⟩ : HDF5Recorder).extend "d" scalarArr).2.flush).2.storeData
      = [("d", [scalarArr])] :=
  C4_extend_scalar_defers_error ⟨[], [], true⟩ "d" scalarArr rfl rfl rfl

/-- C5's first batch: shape (10,) float64. -/
def batch1 : Arr := ⟨Dtype.float64, [10], List.replicate 10 1⟩

/-- C5's second batch: shape (10, 2) float64. -/
def batch2 : Arr := ⟨Dtype.float64, [10, 2], List.replicate 20 2⟩

/-- C5 scenario, after extending "t" with the first batch. -/
def c5rec1 : HDF5Recorder :=
  ((HDF5Recorder.openRecorder (freshRec [])).2.extend "t" batch1).2

/-- C5 scenario, after the first (successful) flush. -/
def c5rec2 : HDF5Recorder := (c5rec1.flush).2

/-- C5 scenario, after extending "t" with the mismatched second batch. -/
def c5rec3 : HDF5Recorder := (c5rec2.extend "t" batch2).2

/-- C5 (counterexample): after the failed second flush the table does NOT
retain only the first batch's 10 rows: `dset.resize` runs before the slice
assignment that fails, so the persisted table has 20 rows. -/
theorem C5_failed_flush_leaves_growth :
    (c5rec1.flush).1 = none ∧ fileLen c5rec2.file "t" = 10 ∧
    ((c5rec3.flush).1).isSome ∧
    fileLen ((c5rec3.flush).2).file "t" = 20 ∧
    ¬ fileLen ((c5rec3.flush).2).file "t" = 10 := by decide

/-- C5 (amended): the second batch's flush fails with the slice-assignment
(broadcast) error; afterwards the table on disk has 20 rows — the first
batch's 10 rows unchanged, followed by 10 rows of the fill value 0 reserved
by the resize — and the second batch remains buffered. -/
theorem C5_shape_mismatch_behavior :
    (c5rec3.flush).1 = some Err.broadcastError ∧
    fileLookup ((c5rec3.flush).2).file "t"
      = some ⟨Dtype.float64, [20],
          List.replicate 10 1 ++ List.replicate 10 0⟩ ∧
    ((c5rec3.flush).2).storeData = [("t", [batch2])] := by decide

/-- Two rows for C6's first session. -/
def rowA : Arr := ⟨Dtype.float64, [2], [10, 11]⟩

/-- One new row for C6's second session. -/
def rowB : Arr := ⟨Dtype.float64, [1], [12]⟩

/-- C6 first session: write two rows to "x" and close. -/
def sess1 : HDF5Recorder :=
  ((((freshRec []).openRecorder).2.extend "x" rowA).2.close).2

/-- C6 second session: a new recorder on the same path, one more row. -/
def sess2 : HDF5Recorder :=
  ((((freshRec sess1.file).openRecorder).2.extend "x" rowB).2.close).2

/-- C6 (counterexample): re-opening a recorder on the same path truncates the
file, so writing 1 new row to the previously 2-row table "x" yields a
persisted length of 1, not 2 + 1, and the old rows are gone. -/
theorem C6_roundtrip_growth_fails :
    fileLen sess1.file "x" = 2 ∧ fileLen sess2.file "x" = 1 ∧
    ¬ fileLen sess2.file "x" = fileLen sess1.file "x" + 1 ∧
    ¬ fileLookup sess2.file "x" = fileLookup sess1.file "x" := by decide

/-- C6 (amended): `open()` truncates the backing file, so a recorder re-opened
on a previously written path starts from an empty file; after K rows are
written to a table and flushed, the persisted length is K (the sum of the new
batches' leading dimensions), not the old length plus K, and the old rows are
gone. -/
theorem C6_reopen_truncates (f0 : Hdf5File) (calls : List (String × Arr))
    (T : String) (recF : HDF5Recorder)
    (hwf : ∀ c ∈ calls, (c.2 : Arr).wf)
    (h : (extendAll (HDF5Recorder.openRecorder (freshRec f0)).2 calls).flush
      = (none, recF)) :
    (HDF5Recorder.openRecorder (freshRec f0)).1 = none ∧
    (HDF5Recorder.openRecorder (freshRec f0)).2.file = [] ∧
    (wsFor T calls = [] → fileLookup recF.file T = none) ∧
    (∀ w ws', wsFor T calls = w :: ws' →
      ∃ a, fileLookup recF.file T = some a ∧
        a.shape = trows (w :: ws') :: w.shape.tail ∧
        a.data = tdata (w :: ws')) := by
  have hopened : (HDF5Recorder.openRecorder (freshRec f0)).2
      = (⟨[], [], true⟩ : HDF5Recorder) := rfl
  rw [hopened] at h
  obtain ⟨hwfF, _, hprof⟩ := syncFlush_summary hwf h
  have hu := profile_unpack hwfF (hprof T)
  refine ⟨rfl, rfl, hu.1, fun w ws' hL => ?_⟩
  obtain ⟨a, h1, _, h3, h4⟩ := hu.2 w ws' hL
  rw [hL] at h3 h4
  exact ⟨a, h1, h3, h4⟩

theorem C6_reopen_truncates_witness :
    (HDF5Recorder.openRecorder (freshRec sess1.file)).2.file = [] ∧
    ∃ a, fileLookup sess2.file "x" = some a ∧ a.shape = [1] := by
  have h := C6_reopen_truncates sess1.file [("x", rowB)] "x"
    ((((freshRec sess1.file).openRecorder).2.extend "x" rowB).2.flush).2
    (by decide) (by decide)
  refine ⟨h.2.1, ?_⟩
  obtain ⟨a, h1, h3, _⟩ := h.2.2.2 rowB [] (by decide)
  exact ⟨a, by rw [show sess2.file
    = ((((freshRec sess1.file).openRecorder).2.extend "x" rowB).2.flush).2.file
    by decide]; exact h1, by rw [h3]; decide⟩

/-- C7: Scheduler floor.  Along any physically valid iteration trace of the
consumer loop (monotone `time.monotonic()` readings), started with deadline
`t0 + F` as in `_active_hdf5_recorder`, the completion times of the flushes
performed by the loop are pairwise at least `F` apart — regardless of how many
`Write` messages arrive in between, since receiving a message never triggers a
flush before the deadline set at the previous flush's completion. -/
theorem C7_scheduler_floor (F t0 : Nat) (rec0 : HDF5Recorder)
    (iters : List LoopIter) (hv : validIters t0 iters) :
    gapsOK F ((loopRun F ⟨rec0, t0 + F, []⟩ iters).2.flushes) :=
  (loopRun_sched iters ⟨rec0, t0 + F, []⟩ t0 ⟨trivial, trivial⟩ hv).1

/-- A concrete valid trace for C7: two timeout iterations that both flush. -/
def itersC7 : List LoopIter := [⟨none, 2, 2⟩, ⟨none, 5, 6⟩]

theorem C7_scheduler_floor_witness :
    validIters 0 itersC7 ∧
      gapsOK 2 ((loopRun 2 ⟨⟨[], [], true⟩, 0 + 2, []⟩ itersC7).2.flushes) :=
  ⟨by decide, C7_scheduler_floor 2 0 ⟨[], [], true⟩ itersC7 (by decide)⟩

/-- C8: Buffer-clearing atomicity of `flush`.  If `flush` raises, the
in-memory buffer is left exactly as it was; if it succeeds, the buffer is
emptied and, for every table, the payload now on disk is the old payload with
that table's pending batch appended — so entries are cleared only after their
data has been written in that same flush. -/
theorem C8_flush_buffer_atomicity (r : HDF5Recorder) :
    ((r.flush).1.isSome → (r.flush).2.storeData = r.storeData) ∧
    ((r.flush).1 = none → r.isOpen = true → keysNodup r.storeData →
      wfFile r.file → sdWF r.storeData →
      (r.flush).2.storeData = [] ∧
      ∀ t, tdata (fileLookup (r.flush).2.file t).toList
        = tdata (fileLookup r.file t).toList
          ++ tdata (pendingOf r.storeData t)) := by
  by_cases hO : r.isOpen
  · by_cases hE : r.storeData.isEmpty
    · have hF : r.flush = (none, r) := by
        simp [HDF5Recorder.flush, hO, hE]
      rw [hF]
      refine ⟨fun h => rfl, fun _ _ _ _ _ => ⟨List.isEmpty_iff.mp hE, fun t => ?_⟩⟩
      rw [List.isEmpty_iff.mp hE]
      simp [pendingOf, tdata]
    · cases hft : HDF5Recorder.flushTables r.file r.storeData with
      | error pe =>
        obtain ⟨e₁, f₁⟩ := pe
        have hF : r.flush = (some e₁, { r with file := f₁ }) := by
          simp [HDF5Recorder.flush, hO, hE, hft]
        rw [hF]
        exact ⟨fun _ => rfl, fun h => by simp at h⟩
      | ok file' =>
        have hF : r.flush = (none, { r with file := file', storeData := [] }) := by
          simp [HDF5Recorder.flush, hO, hE, hft]
        rw [hF]
        refine ⟨fun h => by simp at h, fun _ _ hnd hwfF hsd => ⟨rfl, fun t => ?_⟩⟩
        obtain ⟨_, hprof⟩ := flushTables_ok r.storeData r.file file' hft hnd hwfF hsd
        have := (hprof t).1
        rw [this, tdata_append]
  · have hF : r.flush = (some Err.flushClosed, r) := by
      simp [HDF5Recorder.flush, hO]
    rw [hF]
    exact ⟨fun _ => rfl, fun _ hO' => absurd hO' hO⟩

/-- A buffered state whose flush fails (zero-dimensional batch). -/
def c8bad : HDF5Recorder := ⟨[], [("d", [scalarArr])], true⟩

/-- A buffered state whose flush succeeds. -/
def c8good : HDF5Recorder := ⟨[], [("x", [arrX])], true⟩

theorem C8_flush_buffer_atomicity_witness :
    ((c8bad.flush).1.isSome ∧ (c8bad.flush).2.storeData = c8bad.storeData) ∧
    ((c8good.flush).2.storeData = [] ∧
      tdata (fileLookup (c8good.flush).2.file "x").toList
        = tdata (fileLookup c8good.file "x").toList
          ++ tdata (pendingOf c8good.storeData "x")) := by
  refine ⟨⟨by decide, (C8_flush_buffer_atomicity c8bad).1 (by decide)⟩, ?_⟩
  have h := (C8_flush_buffer_atomicity c8good).2 (by decide) (by decide)
    (by decide) (by decide) (by decide)
  exact ⟨h.1, h.2 "x"⟩

/-- C9: Lifecycle misuse.  Opening an already-open recorder, closing a
recorder that is not open, or storing/flushing on a recorder that is not open
each raises the corresponding `RuntimeError` and leaves the state unchanged —
for the synchronous `HDF5Recorder` (open/close/extend/append/flush) and the
asynchronous `ActiveHDF5Recorder` (open/close/extend/append) alike. -/
theorem C9_lifecycle_errors (r : HDF5Recorder) (ar : ActiveHDF5Recorder)
    (d : String) (a : Arr) :
    (r.isOpen = true → r.openRecorder = (some Err.openAlreadyOpen, r)) ∧
    (r.isOpen = false →
      r.close = (some Err.closeAlreadyClosed, r) ∧
      r.extend d a = (some Err.storeClosed, r) ∧
      r.append d a = (some Err.storeClosed, r) ∧
      r.flush = (some Err.flushClosed, r)) ∧
    (ar.isOpen = true →
      ar.openRecorder = (some Err.openAlreadyOpen, ar)) ∧
    (ar.isOpen = false →
      ar.close = (some Err.closeAlreadyClosed, ar) ∧
      ar.extend d a = (some Err.storeClosed, ar) ∧
      ar.append d a = (some Err.storeClosed, ar)) := by
  refine ⟨fun h => ?_, fun h => ?_, fun h => ?_, fun h => ?_⟩ <;>
    simp [HDF5Recorder.openRecorder, HDF5Recorder.close,
      HDF5Recorder.extend, HDF5Recorder.append, HDF5Recorder.flush,
      ActiveHDF5Recorder.openRecorder, ActiveHDF5Recorder.close,
      ActiveHDF5Recorder.extend, ActiveHDF5Recorder.append, h]

theorem C9_lifecycle_errors_witness :
    (⟨[], [], true⟩ : HDF5Recorder).openRecorder
        = (some Err.openAlreadyOpen, ⟨[], [], true⟩) ∧
    (⟨[], [], false⟩ : HDF5Recorder).close
        = (some Err.closeAlreadyClosed, ⟨[], [], false⟩) ∧
    (⟨[], [], false⟩ : HDF5Recorder).flush
        = (some Err.flushClosed, ⟨[], [], false⟩) ∧
    (⟨[], true⟩ : ActiveHDF5Recorder).openRecorder
        = (some Err.openAlreadyOpen, ⟨[], true⟩) ∧
    (⟨[], false⟩ : ActiveHDF5Recorder).extend "d" arrX
        = (some Err.storeClosed, ⟨[], false⟩) := by
  have h1 := C9_lifecycle_errors (⟨[], [], true⟩ : HDF5Recorder)
    (⟨[], true⟩ : ActiveHDF5Recorder) "d" arrX
  have h2 := C9_lifecycle_errors (⟨[], [], false⟩ : HDF5Recorder)
    (⟨[], false⟩ : ActiveHDF5Recorder) "d" arrX
  exact ⟨h1.1 rfl, (h2.2.1 rfl).1, (h2.2.1 rfl).2.2.2, h1.2.2.1 rfl,
    (h2.2.2.2 rfl).2.1⟩

/-- C10: Zero-row extend.  Extending an open (fresh-buffer) recorder with an
array whose leading dimension is 0 succeeds, and the subsequent flush leaves
the length of every existing table unchanged; if the named table did not yet
exist, the flush succeeds and creates it with zero rows and the trailing shape
and dtype of the supplied array. -/
theorem C10_extend_zero_rows (r : HDF5Recorder) (d : String) (a : Arr)
    (hopen : r.isOpen = true) (hbuf : r.storeData = [])
    (hwfF : wfFile r.file) (hnd : a.shape ≠ [])
    (hlead : a.lead = 0) (hwa : a.wf) :
    (r.extend d a).1 = none ∧
    (∀ t, fileLen ((r.extend d a).2.flush).2.file t = fileLen r.file t) ∧
    (fileLookup r.file d = none →
      ((r.extend d a).2.flush).1 = none ∧
      fileLookup ((r.extend d a).2.flush).2.file d = some a) := by
  have hashape : a.shape = 0 :: a.shape.tail := by
    rw [← hlead]; exact a.shape_eq hnd
  have haz : a.data = [] := by
    have h2 := hwa
    unfold Arr.wf at h2
    rw [hashape] at h2
    simpa using h2
  have hconc : concatenate [a] = some a := by
    have hcd : concatenate [a]
        = some ⟨a.dtype, a.lead :: a.shape.tail, a.data⟩ := by
      simp [concatenate, hnd, Arr.lead]
    rw [hcd, hlead, ← hashape]
  have hE : r.extend d a = (none, { r with storeData := [(d, [a])] }) := by
    simp [HDF5Recorder.extend, hopen, hbuf, storePush]
  rw [hE]
  simp only
  refine ⟨trivial, ?_⟩
  cases hfl : fileLookup r.file d with
  | none =>
    have hft : HDF5Recorder.flushTables r.file [(d, [a])]
        = .ok (r.file ++ [(d, a)]) := by
      simp [HDF5Recorder.flushTables, hconc, hfl]
    have hF : ({ r with storeData := [(d, [a])] } : HDF5Recorder).flush
        = (none, { r with file := r.file ++ [(d, a)], storeData := [] }) := by
      simp [HDF5Recorder.flush, hopen, hft]
    rw [hF]
    refine ⟨fun t => ?_, fun _ => ⟨rfl, ?_⟩⟩
    · by_cases ht : t = d
      · subst ht
        simp only [fileLen]
        rw [fileLookup_append_of_none _ hfl, hfl]
        simp [fileLookup, hlead]
      · simp only [fileLen]
        rw [fileLookup_append_singleton_ne _ ht]
    · rw [fileLookup_append_of_none _ hfl]
      simp [fileLookup]
  | some dset =>
    have hdwf := wfFile_lookup hwfF hfl
    have hR : dsetResize dset (dset.lead + a.lead) = dset := by
      rw [dsetResize_grow, hlead]
      show (⟨dset.dtype, (dset.lead + 0) :: dset.shape.tail,
        dset.data ++ List.replicate (0 * dset.shape.tail.prod) 0⟩ : Arr) = dset
      rw [Nat.add_zero, Nat.zero_mul, List.replicate_zero, List.append_nil,
        ← dset.shape_eq hdwf.1]
    cases hsa : sliceAssign dset dset.lead (dset.lead + a.lead) a with
    | none =>
      have hft : HDF5Recorder.flushTables r.file [(d, [a])]
          = .error (.broadcastError, fileSet r.file d dset) := by
        simp only [HDF5Recorder.flushTables, hconc, hfl, hR, hsa]
      have hF : ({ r with storeData := [(d, [a])] } : HDF5Recorder).flush
          = (some Err.broadcastError,
             ⟨fileSet r.file d dset, [(d, [a])], r.isOpen⟩) := by
        simp [HDF5Recorder.flush, hopen, hft]
      rw [hF]
      refine ⟨fun t => ?_, fun hcontra => ?_⟩
      · by_cases ht : t = d
        · subst ht
          simp only [fileLen]
          rw [fileLookup_fileSet_self dset hfl, hfl]
        · simp only [fileLen]
          rw [fileLookup_fileSet_of_ne _ ht]
      · exact Option.noConfusion hcontra
    | some dsetW =>
      have hW : dsetW = dset := by
        obtain ⟨h1, h2, h3⟩ := sliceAssign_eq_some hsa
        rw [h3, haz, hlead]
        simp [List.take_append_drop]
      have hft : HDF5Recorder.flushTables r.file [(d, [a])]
          = .ok (fileSet r.file d dset) := by
        simp only [HDF5Recorder.flushTables, hconc, hfl, hR, hsa, hW]
      have hF : ({ r with storeData := [(d, [a])] } : HDF5Recorder).flush
          = (none, ⟨fileSet r.file d dset, [], r.isOpen⟩) := by
        simp [HDF5Recorder.flush, hopen, hft]
      rw [hF]
      refine ⟨fun t => ?_, fun hcontra => ?_⟩
      · by_cases ht : t = d
        · subst ht
          simp only [fileLen]
          rw [fileLookup_fileSet_self dset hfl, hfl]
        · simp only [fileLen]
          rw [fileLookup_fileSet_of_ne _ ht]
      · exact Option.noConfusion hcontra

/-- A pre-existing 2-row table for C10's witness scenario. -/
def c10state : HDF5Recorder := ⟨[("y", ⟨Dtype.float64, [2], [5, 6]⟩)], [], true⟩

/-- A (0,) float64 batch. -/
def zeroRows : Arr := ⟨Dtype.float64, [0], []⟩

theorem C10_extend_zero_rows_witness :
    (c10state.extend "z" zeroRows).1 = none ∧
    fileLen ((c10state.extend "z" zeroRows).2.flush).2.file "y"
      = fileLen c10state.file "y" ∧
    ((c10state.extend "z" zeroRows).2.flush).1 = none ∧
    fileLookup ((c10state.extend "z" zeroRows).2.flush).2.file "z"
      = some zeroRows := by
  have h := C10_extend_zero_rows c10state "z" zeroRows rfl rfl (by decide)
    (by decide) rfl (by decide)
  exact ⟨h.1, h.2.1 "y", (h.2.2 (by decide)).1, (h.2.2 (by decide)).2⟩
